import Mathlib

/-!
Verification development for the ipld-eth-server repository.

The Go source is shallowly embedded: SQL queries become pure functions over a
relational model of the index tables, the subscription engine becomes a state
machine on an explicit state record, and fallible operations return Except.
Go maps are modelled as association lists (insert replaces the binding for an
existing key, mirroring Go map assignment), and the Go runtime rule that
closing an already-closed channel panics is modelled by an explicit error.
-/

deriving instance DecidableEq for Except

namespace IpldEth

/-! ## Association-list helpers (model of Go maps) -/

/-- Look up a key in an association list, first binding wins. -/
def lookupA {α : Type} (k : Nat) : List (Nat × α) → Option α
  | [] => none
  | (k₂, v) :: rest => if k = k₂ then some v else lookupA k rest

/-- Remove every binding of a key (model of the Go delete builtin). -/
def eraseA {α : Type} (k : Nat) : List (Nat × α) → List (Nat × α)
  | [] => []
  | (k₂, v) :: rest => if k = k₂ then eraseA k rest else (k₂, v) :: eraseA k rest

/-- Replace the binding for a key, or append a new one (Go map assignment). -/
def insertA {α : Type} (k : Nat) (v : α) : List (Nat × α) → List (Nat × α)
  | [] => [(k, v)]
  | (k₂, w) :: rest => if k = k₂ then (k, v) :: rest else (k₂, w) :: insertA k v rest

theorem lookupA_eraseA_ne {α : Type} (k k₂ : Nat) (l : List (Nat × α)) (h : k₂ ≠ k) :
    lookupA k₂ (eraseA k l) = lookupA k₂ l := by
  induction l with
  | nil => rfl
  | cons hd tl ih =>
    obtain ⟨k₃, v⟩ := hd
    by_cases hk : k = k₃
    · subst hk
      simp [eraseA, lookupA, h, ih]
    · simp only [eraseA, if_neg hk, lookupA]
      by_cases hk₂ : k₂ = k₃
      · simp [hk₂]
      · simp [hk₂, ih]

theorem lookupA_eraseA_self {α : Type} (k : Nat) (l : List (Nat × α)) :
    lookupA k (eraseA k l) = none := by
  induction l with
  | nil => rfl
  | cons hd tl ih =>
    obtain ⟨k₃, v⟩ := hd
    by_cases hk : k = k₃
    · simpa [eraseA, hk] using ih
    · simp [eraseA, hk, lookupA, ih]

theorem lookupA_insertA_self {α : Type} (k : Nat) (v : α) (l : List (Nat × α)) :
    lookupA k (insertA k v l) = some v := by
  induction l with
  | nil => simp [insertA, lookupA]
  | cons hd tl ih =>
    obtain ⟨k₃, w⟩ := hd
    by_cases hk : k = k₃
    · simp [insertA, hk, lookupA]
    · simp [insertA, hk, lookupA, ih]

theorem lookupA_insertA_ne {α : Type} (k k₂ : Nat) (v : α) (l : List (Nat × α)) (h : k₂ ≠ k) :
    lookupA k₂ (insertA k v l) = lookupA k₂ l := by
  induction l with
  | nil => simp [insertA, lookupA, h]
  | cons hd tl ih =>
    obtain ⟨k₃, w⟩ := hd
    by_cases hk : k = k₃
    · subst hk
      simp [insertA, lookupA, h]
    · simp only [insertA, if_neg hk, lookupA]
      by_cases hk₂ : k₂ = k₃
      · simp [hk₂]
      · simp [hk₂, ih]

/-! ## Subscription engine (pkg/serve Service)

State of the engine as held in the Service struct: the Subscriptions map
(subscription-type hash to bucket of subscriptions by rpc.ID), the
SubscriptionTypes map (type hash to the filter params), and whether the
QuitChan channel has been closed.  Hashes, ids and params are abstracted to
Nat; a Subscription carries only its id since the channels are modelled by
the effect lists the operations return. -/

@[ext]
structure EngineState where
  subscriptions : List (Nat × List (Nat × Nat))
  subscriptionTypes : List (Nat × Nat)
  quitClosed : Bool
  deriving Repr, DecidableEq

/-- The state set up by NewServer: empty maps, open quit channel. -/
def initialEngineState : EngineState :=
  { subscriptions := [], subscriptionTypes := [], quitClosed := false }

/-- Service.Subscribe, non-backfill-only path (part_000 lines 260 to 269):
under the lock, create the bucket for the type hash if absent, add the
subscription under its id, and record the params for the type hash.
A BackFillOnly subscription performs no state mutation. -/
def subscribe (s : EngineState) (tyHash id params : Nat) (backFillOnly : Bool) : EngineState :=
  if backFillOnly then s
  else
    let bucket := (lookupA tyHash s.subscriptions).getD []
    { s with
      subscriptions := insertA tyHash (insertA id id bucket) s.subscriptions
      subscriptionTypes := insertA tyHash params s.subscriptionTypes }

theorem eraseA_cons_self {α : Type} (k : Nat) (v : α) (tl : List (Nat × α)) :
    eraseA k ((k, v) :: tl) = eraseA k tl := by
  simp [eraseA]

theorem eraseA_cons_ne {α : Type} (k k₃ : Nat) (v : α) (tl : List (Nat × α))
    (h : k ≠ k₃) : eraseA k ((k₃, v) :: tl) = (k₃, v) :: eraseA k tl := by
  simp [eraseA, h]

theorem eraseA_idem {α : Type} (k : Nat) (l : List (Nat × α)) :
    eraseA k (eraseA k l) = eraseA k l := by
  induction l with
  | nil => rfl
  | cons hd tl ih =>
    obtain ⟨k₃, v⟩ := hd
    by_cases hk : k = k₃
    · subst hk
      rw [eraseA_cons_self, ih]
    · rw [eraseA_cons_ne k k₃ v tl hk, eraseA_cons_ne k k₃ v (eraseA k tl) hk, ih]

theorem lookupA_some_mem {α : Type} (k : Nat) (v : α) (l : List (Nat × α))
    (h : lookupA k l = some v) : (k, v) ∈ l := by
  induction l with
  | nil => cases h
  | cons hd tl ih =>
    obtain ⟨k₃, w⟩ := hd
    by_cases hk : k = k₃
    · subst hk
      have hv : w = v := by simpa [lookupA] using h
      subst hv
      exact List.mem_cons_self _ _
    · simp only [lookupA, if_neg hk] at h
      exact List.mem_cons_of_mem _ (ih h)

/-- Service.Unsubscribe (part_000 lines 353 to 365): for every type bucket,
delete the id from the bucket; a bucket left empty is removed outright,
together with its params entry.  The loop body touches only the entry of the
type hash being visited, so it is rendered pointwise: a bucket entry survives
with the id erased when nonempty, and a params entry survives unless the
bucket of the same hash became empty. -/
def unsubscribe (s : EngineState) (id : Nat) : EngineState :=
  { s with
    subscriptions := s.subscriptions.filterMap fun e =>
      let bucket := eraseA id e.2
      if bucket.isEmpty then none else some (e.1, bucket)
    subscriptionTypes := s.subscriptionTypes.filter fun t =>
      match lookupA t.1 s.subscriptions with
      | none => true
      | some bucket => ¬ (eraseA id bucket).isEmpty }

/-- Service.closeType (part_000 lines 408 to 416): send a non-blocking quit to
every member of the bucket, then delete the bucket and its params entry.
Returns the new state and the ids notified. -/
def closeType (s : EngineState) (tyHash : Nat) : EngineState × List Nat :=
  let notified := ((lookupA tyHash s.subscriptions).getD []).map (·.1)
  ({ s with
      subscriptions := eraseA tyHash s.subscriptions
      subscriptionTypes := eraseA tyHash s.subscriptionTypes }, notified)

/-- Service.close (part_000 lines 395 to 404): quit-notify every subscription
of every bucket and clear both maps.  Returns the notified ids. -/
def closeAll (s : EngineState) : EngineState × List Nat :=
  let notified := s.subscriptions.flatMap (fun entry => entry.2.map (·.1))
  ({ s with subscriptions := [], subscriptionTypes := [] }, notified)

/-- Service.Stop (part_000 lines 379 to 386): close the QuitChan, then close
all subscriptions under the lock.  Closing an already-closed Go channel
panics, so a second Stop is a runtime panic; the model surfaces that as an
error value. -/
def stop (s : EngineState) : Except String (EngineState × List Nat) :=
  if s.quitClosed then .error "panic: close of closed channel"
  else
    let closed := closeAll { s with quitClosed := true }
    .ok closed

/-- Two Stop calls in direct succession, as the idempotence claim describes. -/
def stopTwice (s : EngineState) : Except String (EngineState × List Nat) :=
  match stop s with
  | .error e => .error e
  | .ok r => stop r.1

/-! ## Backfill block range (Service.sendHistoricalData, part_000 lines 282 to 350)

The task computes startingBlock and endingBlock from the index extremes and the
subscription params, then iterates i from startingBlock to endingBlock. -/

/-- startingBlock := RetrieveFirstBlockNumber(); if startingBlock < params.Start
then startingBlock = params.Start (part_000 lines 288 to 294). -/
def backfillStartBlock (indexFirst start : Int) : Int :=
  if indexFirst < start then start else indexFirst

/-- endingBlock := RetrieveLastBlockNumber(); if endingBlock > params.End and
params.End > 0 and params.End > startingBlock then endingBlock = params.End
(part_000 lines 295 to 301). -/
def backfillEndBlock (indexLast endP startingBlock : Int) : Int :=
  if indexLast > endP ∧ endP > 0 ∧ endP > startingBlock then endP else indexLast

/-- The ascending sequence of block heights visited by the backfill loop
(for i := startingBlock; i <= endingBlock; i++). -/
def backfillBlocks (indexFirst indexLast start endP : Int) : List Int :=
  let s := backfillStartBlock indexFirst start
  let e := backfillEndBlock indexLast endP s
  (List.range (e + 1 - s).toNat).map (fun i => s + (i : Int))

/-- Modelled from the claim text, for comparison: the ascending enumeration of
the intersection of the interval from Start to End with the interval from
indexFirst to indexLast. -/
def intersectionBlocks (start endP indexFirst indexLast : Int) : List Int :=
  let lo := max start indexFirst
  let hi := min endP indexLast
  (List.range (hi + 1 - lo).toNat).map (fun i => lo + (i : Int))

/-! ## The live fan-out path (Service.filterAndServe, part_000 lines 199 to 239)

For one payload the loop visits every type bucket.  The data-dependent
outcomes (the End bound carried by the params, whether the filter or the RLP
encoding fails) are supplied by an oracle keyed on the params value. -/

structure ServeOracle where
  payloadNumber : Int
  endBound : Nat → Int
  filterFails : Nat → Bool
  rlpFails : Nat → Bool

/-- One iteration of the filterAndServe loop for type hash ty, given the
current engine state.  Returns the successor state and whether the
missing-configuration branch (lines 207 to 212) was taken. -/
def serveStep (o : ServeOracle) (s : EngineState) (ty : Nat) : EngineState × Bool :=
  match lookupA ty s.subscriptionTypes with
  | none => ((closeType s ty).1, true)
  | some params =>
    if o.endBound params > 0 ∧ o.endBound params < o.payloadNumber then
      ((closeType s ty).1, false)
    else if o.filterFails params then ((closeType s ty).1, false)
    else (s, false)

/-- The loop over the listed type hashes; hit records whether any iteration
took the missing-configuration branch. -/
def filterAndServeAux (o : ServeOracle) : List Nat → EngineState → Bool → EngineState × Bool
  | [], s, hit => (s, hit)
  | ty :: rest, s, hit =>
    let step := serveStep o s ty
    filterAndServeAux o rest step.1 (hit || step.2)

/-- Service.filterAndServe: iterate over the type hashes of the Subscriptions
map under the engine mutex (an RLP-encoding failure and the per-member sends
leave the maps untouched, so they do not appear in the state transition). -/
def filterAndServe (o : ServeOracle) (s : EngineState) : EngineState × Bool :=
  filterAndServeAux o (s.subscriptions.map (·.1)) s false

/-- The engine states reachable from the fresh service through the public and
internal operations named by the claim. -/
inductive ReachableEngine : EngineState → Prop
  | init : ReachableEngine initialEngineState
  | subscribeStep (s : EngineState) (ty id params : Nat) (bfo : Bool) :
      ReachableEngine s → ReachableEngine (subscribe s ty id params bfo)
  | unsubscribeStep (s : EngineState) (id : Nat) :
      ReachableEngine s → ReachableEngine (unsubscribe s id)
  | serveStepR (s : EngineState) (o : ServeOracle) :
      ReachableEngine s → ReachableEngine (filterAndServe o s).1
  | closeTypeStep (s : EngineState) (ty : Nat) :
      ReachableEngine s → ReachableEngine (closeType s ty).1
  | stopStep (s s₂ : EngineState) (ids : List Nat) :
      ReachableEngine s → stop s = .ok (s₂, ids) → ReachableEngine s₂

/-- The invariant the claims are about: every type hash keying the
Subscriptions map also keys the SubscriptionTypes map, and the Subscriptions
key list is duplicate-free (as for any Go map). -/
def EngineInv (s : EngineState) : Prop :=
  (∀ ty ∈ s.subscriptions.map (·.1), ty ∈ s.subscriptionTypes.map (·.1)) ∧
    (s.subscriptions.map (·.1)).Nodup

theorem mem_keys_iff_lookupA {α : Type} (k : Nat) (l : List (Nat × α)) :
    k ∈ l.map (·.1) ↔ (lookupA k l).isSome := by
  induction l with
  | nil => simp [lookupA]
  | cons hd tl ih =>
    obtain ⟨k₃, v⟩ := hd
    by_cases hk : k = k₃
    · simp [lookupA, hk]
    · simp [lookupA, hk, ih]

theorem mem_keys_insertA {α : Type} (k k₂ : Nat) (v : α) (l : List (Nat × α)) :
    k₂ ∈ (insertA k v l).map (·.1) ↔ k₂ = k ∨ k₂ ∈ l.map (·.1) := by
  induction l with
  | nil => simp [insertA]
  | cons hd tl ih =>
    obtain ⟨k₃, w⟩ := hd
    by_cases hk : k = k₃
    · subst hk
      by_cases hk₂ : k₂ = k <;> simp [insertA, hk₂]
    · simp only [insertA, if_neg hk, List.map_cons, List.mem_cons, ih]
      tauto

theorem nodup_keys_insertA {α : Type} (k : Nat) (v : α) (l : List (Nat × α))
    (h : (l.map (·.1)).Nodup) : ((insertA k v l).map (·.1)).Nodup := by
  induction l with
  | nil => simp [insertA]
  | cons hd tl ih =>
    obtain ⟨k₃, w⟩ := hd
    simp only [List.map_cons, List.nodup_cons] at h
    by_cases hk : k = k₃
    · subst hk
      simpa [insertA, List.nodup_cons] using h
    · simp only [insertA, if_neg hk, List.map_cons, List.nodup_cons]
      refine ⟨?_, ih h.2⟩
      rw [mem_keys_insertA]
      rintro (rfl | hmem)
      · exact hk rfl
      · exact h.1 hmem

theorem eraseA_sublist {α : Type} (k : Nat) (l : List (Nat × α)) :
    (eraseA k l).Sublist l := by
  induction l with
  | nil => simp [eraseA]
  | cons hd tl ih =>
    obtain ⟨k₃, v⟩ := hd
    by_cases hk : k = k₃
    · subst hk
      rw [eraseA_cons_self]
      exact ih.cons (k, v)
    · rw [eraseA_cons_ne k k₃ v tl hk]
      exact ih.cons₂ (k₃, v)

theorem mem_keys_eraseA {α : Type} (k k₂ : Nat) (l : List (Nat × α)) :
    k₂ ∈ (eraseA k l).map (·.1) ↔ k₂ ≠ k ∧ k₂ ∈ l.map (·.1) := by
  induction l with
  | nil => simp [eraseA]
  | cons hd tl ih =>
    obtain ⟨k₃, v⟩ := hd
    by_cases hk : k = k₃
    · subst hk
      rw [eraseA_cons_self, ih]
      simp only [List.map_cons, List.mem_cons]
      constructor
      · rintro ⟨hne, hmem⟩
        exact ⟨hne, Or.inr hmem⟩
      · rintro ⟨hne, rfl | hmem⟩
        · exact absurd rfl hne
        · exact ⟨hne, hmem⟩
    · rw [eraseA_cons_ne k k₃ v tl hk]
      simp only [List.map_cons, List.mem_cons, ih]
      by_cases hk₂ : k₂ = k₃
      · subst hk₂
        have hne : k₂ ≠ k := fun h => hk h.symm
        tauto
      · tauto

theorem lookupA_of_mem_nodup {α : Type} (k : Nat) (v : α) (l : List (Nat × α))
    (hnd : (l.map (·.1)).Nodup) (hmem : (k, v) ∈ l) : lookupA k l = some v := by
  induction l with
  | nil => cases hmem
  | cons hd tl ih =>
    obtain ⟨k₃, w⟩ := hd
    simp only [List.map_cons, List.nodup_cons] at hnd
    rcases List.mem_cons.mp hmem with heq | htl
    · injection heq with h1 h2
      subst h1
      subst h2
      simp [lookupA]
    · have hk : k ≠ k₃ := by
        rintro rfl
        exact hnd.1 (List.mem_map.mpr ⟨(k, v), htl, rfl⟩)
      simp [lookupA, hk, ih hnd.2 htl]

theorem subscribe_inv (s : EngineState) (ty id params : Nat) (bfo : Bool)
    (h : EngineInv s) : EngineInv (subscribe s ty id params bfo) := by
  obtain ⟨h₁, h₂⟩ := h
  by_cases hb : bfo
  · simpa [subscribe, hb] using ⟨h₁, h₂⟩
  · simp only [subscribe, hb, if_false, Bool.false_eq_true]
    constructor
    · intro ty₂ hty₂
      rw [mem_keys_insertA] at hty₂ ⊢
      rcases hty₂ with rfl | hmem
      · exact Or.inl rfl
      · exact Or.inr (h₁ ty₂ hmem)
    · exact nodup_keys_insertA ty _ _ h₂

theorem closeType_inv (s : EngineState) (ty : Nat) (h : EngineInv s) :
    EngineInv (closeType s ty).1 := by
  obtain ⟨h₁, h₂⟩ := h
  constructor
  · intro ty₂ hty₂
    simp only [closeType] at hty₂ ⊢
    rw [mem_keys_eraseA] at hty₂ ⊢
    exact ⟨hty₂.1, h₁ ty₂ hty₂.2⟩
  · exact h₂.sublist ((eraseA_sublist ty s.subscriptions).map (·.1))

theorem unsubscribe_inv (s : EngineState) (id : Nat) (h : EngineInv s) :
    EngineInv (unsubscribe s id) := by
  obtain ⟨h₁, h₂⟩ := h
  have hkeys : ((unsubscribe s id).subscriptions.map (·.1)).Sublist
      (s.subscriptions.map (·.1)) := by
    simp only [unsubscribe]
    induction s.subscriptions with
    | nil => simp
    | cons e tl ih =>
      obtain ⟨k, bucket⟩ := e
      by_cases hemp : (eraseA id bucket).isEmpty
      · rw [List.filterMap_cons]
        simp only [hemp, if_true]
        exact ih.cons k
      · rw [List.filterMap_cons]
        simp only [hemp, if_false, Bool.false_eq_true]
        exact ih.cons₂ k
  refine ⟨?_, h₂.sublist hkeys⟩
  intro ty hty
  simp only [unsubscribe, List.mem_map] at hty
  obtain ⟨e₂, he₂, rfl⟩ := hty
  rw [List.mem_filterMap] at he₂
  obtain ⟨e, he, hfe⟩ := he₂
  by_cases hemp : (eraseA id e.2).isEmpty
  · simp [hemp] at hfe
  · simp only [hemp, if_false, Bool.false_eq_true, Option.some.injEq] at hfe
    subst hfe
    have hmemk : e.1 ∈ s.subscriptions.map (·.1) := List.mem_map.mpr ⟨e, he, rfl⟩
    have hlk : lookupA e.1 s.subscriptions = some e.2 :=
      lookupA_of_mem_nodup e.1 e.2 s.subscriptions h₂ he
    have htys : e.1 ∈ s.subscriptionTypes.map (·.1) := h₁ e.1 hmemk
    rw [List.mem_map] at htys
    obtain ⟨t, ht, htk⟩ := htys
    refine List.mem_map.mpr ⟨t, ?_, htk⟩
    simp only [unsubscribe]
    rw [List.mem_filter]
    refine ⟨ht, ?_⟩
    rw [htk, hlk]
    simp [hemp]

theorem serveStep_state (o : ServeOracle) (s : EngineState) (ty : Nat) :
    (serveStep o s ty).1 = s ∨ (serveStep o s ty).1 = (closeType s ty).1 := by
  rcases hl : lookupA ty s.subscriptionTypes with _ | params
  · simp [serveStep, hl]
  · simp only [serveStep, hl]
    by_cases hend : o.endBound params > 0 ∧ o.endBound params < o.payloadNumber
    · rw [if_pos hend]
      exact Or.inr rfl
    · rw [if_neg hend]
      by_cases hf : o.filterFails params = true
      · rw [if_pos hf]
        exact Or.inr rfl
      · rw [if_neg hf]
        exact Or.inl rfl

theorem serveStep_inv (o : ServeOracle) (s : EngineState) (ty : Nat)
    (h : EngineInv s) : EngineInv (serveStep o s ty).1 := by
  rcases serveStep_state o s ty with hs | hs <;> rw [hs]
  · exact h
  · exact closeType_inv s ty h

theorem serveStep_no_missing (o : ServeOracle) (s : EngineState) (ty : Nat)
    (h : ty ∈ s.subscriptionTypes.map (·.1)) : (serveStep o s ty).2 = false := by
  rw [mem_keys_iff_lookupA] at h
  rcases hl : lookupA ty s.subscriptionTypes with _ | params
  · rw [hl] at h
    cases h
  · simp only [serveStep, hl]
    by_cases hend : o.endBound params > 0 ∧ o.endBound params < o.payloadNumber
    · simp [hend]
    · by_cases hf : o.filterFails params <;> simp [hend, hf]

theorem serveStep_types (o : ServeOracle) (s : EngineState) (ty ty₂ : Nat)
    (hne : ty₂ ≠ ty) (h : ty₂ ∈ s.subscriptionTypes.map (·.1)) :
    ty₂ ∈ (serveStep o s ty).1.subscriptionTypes.map (·.1) := by
  rcases serveStep_state o s ty with hs | hs <;> rw [hs]
  · exact h
  · simp only [closeType]
    rw [mem_keys_eraseA]
    exact ⟨hne, h⟩

theorem filterAndServeAux_spec (o : ServeOracle) (keys : List Nat) :
    ∀ (s : EngineState) (hit : Bool), EngineInv s →
      (∀ ty ∈ keys, ty ∈ s.subscriptionTypes.map (·.1)) → keys.Nodup →
      (filterAndServeAux o keys s hit).2 = hit ∧
        EngineInv (filterAndServeAux o keys s hit).1 := by
  induction keys with
  | nil => intro s hit hinv _ _; exact ⟨rfl, hinv⟩
  | cons ty rest ih =>
    intro s hit hinv hmem hnd
    have hstep2 : (serveStep o s ty).2 = false :=
      serveStep_no_missing o s ty (hmem ty (List.mem_cons_self ty rest))
    have hstepInv : EngineInv (serveStep o s ty).1 := serveStep_inv o s ty hinv
    have hrest : ∀ ty₂ ∈ rest, ty₂ ∈ (serveStep o s ty).1.subscriptionTypes.map (·.1) := by
      intro ty₂ hty₂
      have hne : ty₂ ≠ ty := by
        rintro rfl
        exact (List.nodup_cons.mp hnd).1 hty₂
      exact serveStep_types o s ty ty₂ hne (hmem ty₂ (List.mem_cons_of_mem ty hty₂))
    have := ih (serveStep o s ty).1 (hit || (serveStep o s ty).2) hstepInv hrest
      (List.nodup_cons.mp hnd).2
    simpa [filterAndServeAux, hstep2] using this

theorem filterAndServe_spec (o : ServeOracle) (s : EngineState) (h : EngineInv s) :
    (filterAndServe o s).2 = false ∧ EngineInv (filterAndServe o s).1 := by
  obtain ⟨h₁, h₂⟩ := h
  exact filterAndServeAux_spec o (s.subscriptions.map (·.1)) s false ⟨h₁, h₂⟩ h₁ h₂

theorem reachable_engine_inv (s : EngineState) (h : ReachableEngine s) : EngineInv s := by
  induction h with
  | init => exact ⟨by simp [initialEngineState], by simp [initialEngineState]⟩
  | subscribeStep s ty id params bfo _ ih => exact subscribe_inv s ty id params bfo ih
  | unsubscribeStep s id _ ih => exact unsubscribe_inv s id ih
  | serveStepR s o _ ih => exact (filterAndServe_spec o s ih).2
  | closeTypeStep s ty _ ih => exact closeType_inv s ty ih
  | stopStep s s₂ ids _ heq ih =>
    have h₂ : s₂ = { s with quitClosed := true, subscriptions := [], subscriptionTypes := [] } := by
      unfold stop closeAll at heq
      by_cases hq : s.quitClosed
      · simp [hq] at heq
      · simp only [hq, if_false, Bool.false_eq_true, Except.ok.injEq, Prod.mk.injEq] at heq
        exact heq.1.symm
    subst h₂
    exact ⟨by simp, by simp⟩

theorem unsubscribe_idem (s : EngineState) (id : Nat) :
    unsubscribe (unsubscribe s id) id = unsubscribe s id := by
  have hsub : ∀ e ∈ (unsubscribe s id).subscriptions,
      (if (eraseA id e.2).isEmpty then none else some (e.1, eraseA id e.2)) = some e := by
    intro e he
    simp only [unsubscribe, List.mem_filterMap] at he
    obtain ⟨a, ha, hfa⟩ := he
    by_cases hemp : (eraseA id a.2).isEmpty
    · simp [hemp] at hfa
    · simp only [hemp, if_false, Bool.false_eq_true, Option.some.injEq] at hfa
      subst hfa
      simp [eraseA_idem, hemp]
  have hfm : ∀ (l : List (Nat × List (Nat × Nat))),
      (∀ e ∈ l, (if (eraseA id e.2).isEmpty then none
        else some (e.1, eraseA id e.2)) = some e) →
      l.filterMap (fun e => if (eraseA id e.2).isEmpty then none
        else some (e.1, eraseA id e.2)) = l := by
    intro l
    induction l with
    | nil => intro _; rfl
    | cons e tl ih =>
      intro hall
      rw [List.filterMap_cons, hall e (List.mem_cons_self e tl),
        ih (fun a ha => hall a (List.mem_cons_of_mem e ha))]
  apply EngineState.ext
  · exact hfm (unsubscribe s id).subscriptions hsub
  · refine List.filter_eq_self.mpr ?_
    intro t ht
    rcases hl : lookupA t.1 (unsubscribe s id).subscriptions with _ | bucket
    · simp [hl]
    · have hmem := lookupA_some_mem t.1 bucket (unsubscribe s id).subscriptions hl
      have hsome := hsub (t.1, bucket) hmem
      by_cases hemp : eraseA id bucket = []
      · simp [hemp] at hsome
      · simp [hl, hemp]
  · rfl

/-! ## Claim theorems for the subscription engine -/

/-- C4 counterexample: the claim says a second Stop call completes without
panicking, but Service.Stop unconditionally runs close(sap.QuitChan), and
closing an already-closed Go channel panics; calling Stop twice on the fresh
service panics on the second call. -/
theorem C4_counterexample :
    stopTwice initialEngineState = .error "panic: close of closed channel" := by
  rfl

/-- C4 (amended): a first Stop call on a service whose quit channel is open
closes the quit channel, quit-notifies every subscription of every bucket,
and clears both maps; a second Stop call panics (close of a closed channel)
rather than completing; and Unsubscribe is idempotent, so calling it twice
for the same id is safe. -/
theorem C4_stop_unsubscribe (s : EngineState) (id : Nat) (h : s.quitClosed = false) :
    stop s = .ok (⟨[], [], true⟩, s.subscriptions.flatMap fun e => e.2.map (·.1)) ∧
      stopTwice s = .error "panic: close of closed channel" ∧
      unsubscribe (unsubscribe s id) id = unsubscribe s id := by
  refine ⟨?_, ?_, unsubscribe_idem s id⟩
  · simp [stop, closeAll, h]
  · simp [stopTwice, stop, closeAll, h]

/-- C4 witness: the amended statement evaluated on a service holding one live
subscription. -/
theorem C4_stop_unsubscribe_witness :
    stop (subscribe initialEngineState 7 1 5 false) =
        .ok (⟨[], [], true⟩,
        (subscribe initialEngineState 7 1 5 false).subscriptions.flatMap
          fun e => e.2.map (·.1)) ∧
      stopTwice (subscribe initialEngineState 7 1 5 false) =
        .error "panic: close of closed channel" ∧
      unsubscribe (unsubscribe (subscribe initialEngineState 7 1 5 false) 1) 1 =
        unsubscribe (subscribe initialEngineState 7 1 5 false) 1 :=
  C4_stop_unsubscribe (subscribe initialEngineState 7 1 5 false) 1 (by rfl)

/-- C5 counterexample: with the index spanning blocks 1 to 10 and a bounded
subscription with Start = 5 and End = 5, the backfill loop visits blocks 5
through 10, not the singleton intersection 5, because the End bound is only
applied when params.End exceeds the computed starting block. -/
theorem C5_counterexample :
    backfillBlocks 1 10 5 5 ≠ intersectionBlocks 5 5 1 10 := by
  decide

/-- C5 (amended): when End is a positive bound and additionally exceeds
max(Start, indexFirst), the backfill task iterates exactly over the
blocks in the intersection of the interval from Start to End with the
interval from indexFirst to indexLast, in ascending block order; when
End is at most max(Start, indexFirst) the loop instead runs through to
indexLast. -/
theorem C5_backfill_intersection (indexFirst indexLast start endP : Int)
    (hpos : 0 < endP) (hgt : max start indexFirst < endP) :
    backfillBlocks indexFirst indexLast start endP =
      intersectionBlocks start endP indexFirst indexLast := by
  have hs : backfillStartBlock indexFirst start = max start indexFirst := by
    unfold backfillStartBlock
    by_cases hlt : indexFirst < start
    · rw [if_pos hlt, max_eq_left (le_of_lt hlt)]
    · rw [if_neg hlt, max_eq_right (le_of_not_lt hlt)]
  have he : backfillEndBlock indexLast endP (max start indexFirst) = min endP indexLast := by
    unfold backfillEndBlock
    by_cases hlt : indexLast > endP
    · rw [if_pos ⟨hlt, hpos, hgt⟩]
      exact (min_eq_left (le_of_lt hlt)).symm
    · rw [if_neg (fun hc => hlt hc.1)]
      exact (min_eq_right (le_of_not_lt hlt)).symm
  simp only [backfillBlocks, intersectionBlocks]
  rw [hs, he]

/-- C5 witness: the amended statement evaluated with the index spanning
blocks 1 to 10, Start 3 and End 7. -/
theorem C5_backfill_intersection_witness :
    0 < (7 : Int) ∧ max (3 : Int) 1 < 7 ∧
      backfillBlocks 1 10 3 7 = intersectionBlocks 3 7 1 10 :=
  ⟨by decide, by decide, C5_backfill_intersection 1 10 3 7 (by decide) (by decide)⟩

/-- C10: in every engine state reachable through Subscribe, Unsubscribe,
filterAndServe, closeType and Stop, every type hash keying the Subscriptions
map also keys the SubscriptionTypes map, and consequently no run of
filterAndServe ever takes its missing-configuration branch. -/
theorem C10_types_invariant (s : EngineState) (h : ReachableEngine s) :
    (∀ ty ∈ s.subscriptions.map (·.1), ty ∈ s.subscriptionTypes.map (·.1)) ∧
      ∀ o : ServeOracle, (filterAndServe o s).2 = false := by
  have hinv := reachable_engine_inv s h
  exact ⟨hinv.1, fun o => (filterAndServe_spec o s hinv).1⟩

/-- C10 witness: the invariant and the unreachability of the
missing-configuration branch, evaluated on the state reached by one
Subscribe call on the fresh service. -/
theorem C10_types_invariant_witness :
    (∀ ty ∈ (subscribe initialEngineState 7 1 5 false).subscriptions.map (·.1),
        ty ∈ (subscribe initialEngineState 7 1 5 false).subscriptionTypes.map (·.1)) ∧
      ∀ o : ServeOracle, (filterAndServe o (subscribe initialEngineState 7 1 5 false)).2 = false :=
  C10_types_invariant (subscribe initialEngineState 7 1 5 false)
    (ReachableEngine.subscribeStep initialEngineState 7 1 5 false ReachableEngine.init)

/-! ## CIDRetriever.Retrieve transaction discipline (cid_retriever.go lines 132 to 229)

The function opens a database transaction, runs the per-header retrieval
steps, and finishes through a deferred handler: on a recovered panic it rolls
the transaction back and re-raises, on a pending error it rolls back, and
otherwise it commits.  The outcome of each database call is supplied by an
oracle; an Outcome distinguishes a normal value, a returned error, and a
panic. -/

inductive Outcome (α : Type) where
  | ok (a : α)
  | err (e : String)
  | panicked (p : String)
  deriving Repr, DecidableEq

/-- The filter flags that steer the Retrieve loop: the Off switch of each
sub-filter and the HeaderFilter.Uncles switch. -/
structure RetrieveFilter where
  headerOff : Bool
  uncles : Bool
  txOff : Bool
  rctOff : Bool
  stateOff : Bool
  storageOff : Bool
  deriving Repr, DecidableEq

/-- Oracle giving the outcome of each database call made by Retrieve. -/
structure RetrieveOracle where
  beginErr : Option String
  headerCIDs : Outcome (List String)
  uncleCIDs : String → Outcome (List String)
  txCIDs : String → Outcome (List String)
  rctCIDs : String → List String → Outcome (List String)
  stateCIDs : String → Outcome (List String)
  storageCIDs : String → Outcome (List String)

/-- The per-block result assembled by Retrieve (CIDWrapper). -/
structure CIDWrapper where
  blockNumber : Int
  header : Option String
  uncles : List String
  transactions : List String
  receipts : List String
  stateNodes : List String
  storageNodes : List String
  deriving Repr, DecidableEq

def emptyWrapper (bn : Int) : CIDWrapper :=
  ⟨bn, none, [], [], [], [], []⟩

/-- The body of the Retrieve loop for one header (cid_retriever.go lines 160
to 225): include the header unless HeaderFilter.Off (clearing the empty
flag), fetch uncles when requested, then transactions, receipts (against the
tx hashes just fetched), state nodes and storage nodes, each guarded by its
Off switch, aborting on the first error or panic. -/
def retrieveOne (o : RetrieveOracle) (f : RetrieveFilter) (bn : Int) (hd : String)
    (empty : Bool) : Outcome (CIDWrapper × Bool) :=
  let cw := emptyWrapper bn
  let cw := if !f.headerOff then { cw with header := some hd } else cw
  let empty := if !f.headerOff then false else empty
  match (if !f.headerOff && f.uncles then o.uncleCIDs hd else .ok []) with
  | .err e => .err e
  | .panicked p => .panicked p
  | .ok us =>
    let cw := { cw with uncles := us }
    match (if !f.txOff then o.txCIDs hd else .ok []) with
    | .err e => .err e
    | .panicked p => .panicked p
    | .ok txs =>
      let cw := { cw with transactions := txs }
      let empty := if !f.txOff && decide (0 < txs.length) then false else empty
      match (if !f.rctOff then o.rctCIDs hd txs else .ok []) with
      | .err e => .err e
      | .panicked p => .panicked p
      | .ok rcts =>
        let cw := { cw with receipts := rcts }
        let empty := if !f.rctOff && decide (0 < rcts.length) then false else empty
        match (if !f.stateOff then o.stateCIDs hd else .ok []) with
        | .err e => .err e
        | .panicked p => .panicked p
        | .ok sts =>
          let cw := { cw with stateNodes := sts }
          let empty := if !f.stateOff && decide (0 < sts.length) then false else empty
          match (if !f.storageOff then o.storageCIDs hd else .ok []) with
          | .err e => .err e
          | .panicked p => .panicked p
          | .ok strg =>
            let cw := { cw with storageNodes := strg }
            let empty := if !f.storageOff && decide (0 < strg.length) then false else empty
            .ok (cw, empty)

/-- The loop of Retrieve over the headers found at the block height. -/
def retrieveLoop (o : RetrieveOracle) (f : RetrieveFilter) (bn : Int) :
    List String → Bool → List CIDWrapper → Outcome (List CIDWrapper × Bool)
  | [], empty, acc => .ok (acc.reverse, empty)
  | hd :: rest, empty, acc =>
    match retrieveOne o f bn hd empty with
    | .err e => .err e
    | .panicked p => .panicked p
    | .ok (cw, empty₂) => retrieveLoop o f bn rest empty₂ (cw :: acc)

/-- Fate of the database transaction opened by Retrieve. -/
inductive TxFate where
  | noTx
  | rolledBack
  | committed
  deriving Repr, DecidableEq

inductive RetrieveResult where
  | ok (cws : List CIDWrapper) (empty : Bool)
  | err (e : String)
  | panicked (p : String)
  deriving Repr, DecidableEq

/-- CIDRetriever.Retrieve: begin a transaction (failure surfaces at once with
no transaction open), run the header query and the per-header loop, and
resolve the deferred handler: panic leads to rollback with the panic
re-raised, a pending error leads to rollback with the error returned, and
success commits. -/
def retrieve (o : RetrieveOracle) (f : RetrieveFilter) (bn : Int) :
    RetrieveResult × TxFate :=
  match o.beginErr with
  | some e => (.err e, .noTx)
  | none =>
    match o.headerCIDs with
    | .err e => (.err e, .rolledBack)
    | .panicked p => (.panicked p, .rolledBack)
    | .ok headers =>
      match retrieveLoop o f bn headers true [] with
      | .err e => (.err e, .rolledBack)
      | .panicked p => (.panicked p, .rolledBack)
      | .ok (cws, empty) => (.ok cws empty, .committed)

/-- C6: Retrieve runs its row queries under one transaction: a failure to
begin returns that error at once with no transaction; whenever the run ends
in a re-raised panic the transaction was rolled back; whenever the run
returns an error after a successful begin the transaction was rolled back;
and a successful run commits. -/
theorem C6_retrieve_tx_discipline (o : RetrieveOracle) (f : RetrieveFilter) (bn : Int) :
    (∀ e, o.beginErr = some e → retrieve o f bn = (.err e, .noTx)) ∧
      (∀ p, o.beginErr = none → (retrieve o f bn).1 = .panicked p →
        (retrieve o f bn).2 = .rolledBack) ∧
      (∀ e, o.beginErr = none → (retrieve o f bn).1 = .err e →
        (retrieve o f bn).2 = .rolledBack) ∧
      (∀ cws empty, (retrieve o f bn).1 = .ok cws empty →
        (retrieve o f bn).2 = .committed) := by
  refine ⟨?_, ?_, ?_, ?_⟩
  · intro e he
    simp [retrieve, he]
  · intro p hb hres
    rcases hh : o.headerCIDs with hs | e | q
    · rcases hl : retrieveLoop o f bn hs true [] with r | e | q <;>
        simp [retrieve, hb, hh, hl] at hres ⊢
    · simp [retrieve, hb, hh]
    · simp [retrieve, hb, hh]
  · intro e hb hres
    rcases hh : o.headerCIDs with hs | e₂ | q
    · rcases hl : retrieveLoop o f bn hs true [] with r | e₂ | q <;>
        simp [retrieve, hb, hh, hl] at hres ⊢
    · simp [retrieve, hb, hh]
    · simp [retrieve, hb, hh]
  · intro cws empty hres
    rcases hb : o.beginErr with _ | e
    · rcases hh : o.headerCIDs with hs | e | q
      · rcases hl : retrieveLoop o f bn hs true [] with r | e | q <;>
          simp [retrieve, hb, hh, hl] at hres ⊢
      · simp [retrieve, hb, hh] at hres
      · simp [retrieve, hb, hh] at hres
    · simp [retrieve, hb] at hres

/-- An oracle whose Beginx call fails, for evaluating the discipline. -/
def beginFailOracle : RetrieveOracle :=
  { beginErr := some "begin failure"
    headerCIDs := .ok []
    uncleCIDs := fun _ => .ok []
    txCIDs := fun _ => .ok []
    rctCIDs := fun _ _ => .ok []
    stateCIDs := fun _ => .ok []
    storageCIDs := fun _ => .ok [] }

/-- C6 witness: with a failing Beginx the error surfaces at once and no
transaction is opened. -/
theorem C6_retrieve_tx_discipline_witness :
    retrieve beginFailOracle ⟨false, false, false, false, false, false⟩ 3 =
      (.err "begin failure", .noTx) :=
  (C6_retrieve_tx_discipline beginFailOracle ⟨false, false, false, false, false, false⟩ 3).1
    "begin failure" rfl

/-! ## Transaction and uncle lookups (cid_retriever.go) -/

/-- A row of eth.transaction_cids as selected by RetrieveTxCIDByHash. -/
structure TxRow where
  txHash : String
  headerId : String
  blockNumber : Int
  cid : String
  deriving Repr, DecidableEq

/-- A row of eth.uncle_cids as selected by RetrieveUncleCIDsByHeaderID. -/
structure UncleRow where
  headerId : String
  blockHash : String
  parentHash : String
  cid : String
  blockNumber : Int
  deriving Repr, DecidableEq

/-- RetrieveUncleCIDsByHeaderID (cid_retriever.go lines 243 to 250): SELECT
from eth.uncle_cids WHERE header_id = $1.  The query carries no ORDER BY
clause, so rows come back in table order. -/
def RetrieveUncleCIDsByHeaderID (uncles : List UncleRow) (headerID : String) :
    List UncleRow :=
  uncles.filter fun u => u.headerId == headerID

/-- The row filter of RetrieveTxCIDByHash (cid_retriever.go lines 753 to 757):
tx_hash = $1, header_id equals the canonical header hash of the block
number of the row, and when a block number is supplied, block_number = $2. -/
def txCIDByHashRows (txs : List TxRow) (canonicalHeaderHash : Int → String)
    (txHash : String) (blockNumber : Option Int) : List TxRow :=
  txs.filter fun t =>
    t.txHash == txHash && t.headerId == canonicalHeaderHash t.blockNumber &&
      (match blockNumber with
        | none => true
        | some n => t.blockNumber == n)

inductive TxByHashErr where
  | notFound
  | inMultipleCanonicalBlocks
  deriving Repr, DecidableEq

/-- RetrieveTxCIDByHash (cid_retriever.go lines 747 to 771): run the filtered
query; zero rows is the NotFound error, more than one row is the
transaction-in-multiple-canonical-blocks error, one row is the result. -/
def RetrieveTxCIDByHash (txs : List TxRow) (canonicalHeaderHash : Int → String)
    (txHash : String) (blockNumber : Option Int) : Except TxByHashErr TxRow :=
  match txCIDByHashRows txs canonicalHeaderHash txHash blockNumber with
  | [] => .error .notFound
  | [t] => .ok t
  | _ => .error .inMultipleCanonicalBlocks

/-- C8: RetrieveTxCIDByHash only matches rows whose header_id equals the
canonical header hash of their block number (and the supplied block number
when given); no match is the NotFound error, several matches is the
transaction-in-multiple-canonical-blocks error, and exactly one match is
returned. -/
theorem C8_tx_cid_by_hash (txs : List TxRow) (canon : Int → String)
    (txHash : String) (bn : Option Int) :
    (∀ t, RetrieveTxCIDByHash txs canon txHash bn = .ok t →
        t.txHash = txHash ∧ t.headerId = canon t.blockNumber ∧
          (∀ n, bn = some n → t.blockNumber = n) ∧
          txCIDByHashRows txs canon txHash bn = [t]) ∧
      (txCIDByHashRows txs canon txHash bn = [] →
        RetrieveTxCIDByHash txs canon txHash bn = .error .notFound) ∧
      (∀ t₁ t₂ rest, txCIDByHashRows txs canon txHash bn = t₁ :: t₂ :: rest →
        RetrieveTxCIDByHash txs canon txHash bn = .error .inMultipleCanonicalBlocks) := by
  refine ⟨?_, ?_, ?_⟩
  · intro t hok
    have hrows : txCIDByHashRows txs canon txHash bn = [t] := by
      unfold RetrieveTxCIDByHash at hok
      rcases hr : txCIDByHashRows txs canon txHash bn with _ | ⟨t₁, _ | ⟨t₂, rest⟩⟩
      · rw [hr] at hok
        cases hok
      · rw [hr] at hok
        simp only [Except.ok.injEq] at hok
        rw [hok]
      · rw [hr] at hok
        cases hok
    have hmem : t ∈ txCIDByHashRows txs canon txHash bn := by
      rw [hrows]
      exact List.mem_cons_self _ _
    rw [txCIDByHashRows] at hmem
    obtain ⟨-, hp⟩ := List.mem_filter.mp hmem
    simp only [Bool.and_eq_true, beq_iff_eq] at hp
    obtain ⟨⟨h1, h2⟩, h3⟩ := hp
    refine ⟨h1, h2, ?_, hrows⟩
    intro n hn
    subst hn
    simpa using h3
  · intro hr
    simp [RetrieveTxCIDByHash, hr]
  · intro t₁ t₂ rest hr
    simp [RetrieveTxCIDByHash, hr]

/-- The canonical-header-hash helper of the demonstration index. -/
def demoCanon : Int → String :=
  fun n => if n = 2 then "H2" else "HX"

def demoTxs : List TxRow :=
  [⟨"T", "H2", 2, "cidT"⟩, ⟨"U", "H3", 3, "cidU"⟩]

/-- C8 witness: evaluating the lookup on a two-row table where the matching
transaction sits in the canonical header of block 2. -/
theorem C8_tx_cid_by_hash_witness :
    (⟨"T", "H2", 2, "cidT"⟩ : TxRow).txHash = "T" ∧
      (⟨"T", "H2", 2, "cidT"⟩ : TxRow).headerId =
        demoCanon (⟨"T", "H2", 2, "cidT"⟩ : TxRow).blockNumber ∧
      (∀ n, (some 2 : Option Int) = some n →
        (⟨"T", "H2", 2, "cidT"⟩ : TxRow).blockNumber = n) ∧
      txCIDByHashRows demoTxs demoCanon "T" (some 2) = [⟨"T", "H2", 2, "cidT"⟩] :=
  (C8_tx_cid_by_hash demoTxs demoCanon "T" (some 2)).1 ⟨"T", "H2", 2, "cidT"⟩ (by rfl)

/-- C9 demonstration table: two uncles of the same header whose parent hashes
are out of order relative to the table order. -/
def demoUncles : List UncleRow :=
  [⟨"h", "u1", "pb", "cid1", 1⟩, ⟨"h", "u2", "pa", "cid2", 1⟩]

/-- Ascending text comparison on the character sequences of two strings, the
order an ORDER BY over a VARCHAR column would use. -/
def charListLe : List Char → List Char → Bool
  | [], _ => true
  | _ :: _, [] => false
  | a :: as, b :: bs => if a < b then true else if b < a then false else charListLe as bs

/-- C9 counterexample: the uncle query has no ORDER BY clause, so the rows of
the demonstration table come back in table order, which is not ordered by
parent_hash; the claimed ordering fails on this input. -/
theorem C9_counterexample :
    RetrieveUncleCIDsByHeaderID demoUncles "h" = demoUncles ∧
      ¬ List.Pairwise
        (fun a b : UncleRow => charListLe a.parentHash.data b.parentHash.data = true)
        (RetrieveUncleCIDsByHeaderID demoUncles "h") := by
  decide

/-- C9 (amended): RetrieveUncleCIDsByHeaderID returns exactly the uncle
records whose header_id is the given header, in table row order; the
query imposes no ordering by parent_hash or index. -/
theorem C9_uncles_by_header (uncles : List UncleRow) (headerID : String) :
    (∀ u, u ∈ RetrieveUncleCIDsByHeaderID uncles headerID ↔
        u ∈ uncles ∧ u.headerId = headerID) ∧
      (RetrieveUncleCIDsByHeaderID uncles headerID).Sublist uncles := by
  constructor
  · intro u
    simp [RetrieveUncleCIDsByHeaderID, List.mem_filter]
  · exact List.filter_sublist uncles

/-! ## RLP decoding (go-ethereum rlp.DecodeBytes into a generic value)

Bytes are numbers below 256.  The decoder follows the RLP wire format: a
single byte below 0x80 is itself, 0x80 to 0xb7 prefix short strings, up to
0xbf long strings, 0xc0 to 0xf7 short lists, above that long lists.  Fuel
bounds the recursion; one unit per consumed byte suffices. -/

abbrev Bytes := List Nat

inductive RLPItem where
  | bytes (bs : Bytes)
  | items (l : List RLPItem)

/-- Big-endian interpretation of a length field. -/
def beBytesToNat (bs : Bytes) : Nat :=
  bs.foldl (fun acc b => acc * 256 + b) 0

mutual

def rlpDecodeItem : Nat → Bytes → Except String (RLPItem × Bytes)
  | 0, _ => .error "rlp: value size exceeds available input length"
  | _, [] => .error "EOF"
  | fuel + 1, b :: rest =>
    if b < 0x80 then .ok (.bytes [b], rest)
    else if b ≤ 0xb7 then
      let len := b - 0x80
      if rest.length < len then .error "rlp: value size exceeds available input length"
      else .ok (.bytes (rest.take len), rest.drop len)
    else if b ≤ 0xbf then
      let lenLen := b - 0xb7
      if rest.length < lenLen then .error "rlp: value size exceeds available input length"
      else
        let len := beBytesToNat (rest.take lenLen)
        let rest₂ := rest.drop lenLen
        if rest₂.length < len then .error "rlp: value size exceeds available input length"
        else .ok (.bytes (rest₂.take len), rest₂.drop len)
    else if b ≤ 0xf7 then
      let len := b - 0xc0
      if rest.length < len then .error "rlp: value size exceeds available input length"
      else
        match rlpDecodeSeq fuel (rest.take len) with
        | .error e => .error e
        | .ok l => .ok (.items l, rest.drop len)
    else
      let lenLen := b - 0xf7
      if rest.length < lenLen then .error "rlp: value size exceeds available input length"
      else
        let len := beBytesToNat (rest.take lenLen)
        let rest₂ := rest.drop lenLen
        if rest₂.length < len then .error "rlp: value size exceeds available input length"
        else
          match rlpDecodeSeq fuel (rest₂.take len) with
          | .error e => .error e
          | .ok l => .ok (.items l, rest₂.drop len)

def rlpDecodeSeq : Nat → Bytes → Except String (List RLPItem)
  | 0, _ => .error "rlp: value size exceeds available input length"
  | _ + 1, [] => .ok []
  | fuel + 1, b :: rest =>
    match rlpDecodeItem fuel (b :: rest) with
    | .error e => .error e
    | .ok (it, rest₂) =>
      match rlpDecodeSeq fuel rest₂ with
      | .error e => .error e
      | .ok l => .ok (it :: l)

end

/-- rlp.DecodeBytes(data, new([]interface) behaviour: the whole input must be
one RLP list value; its elements are returned. -/
def rlpDecodeBytesToList (bs : Bytes) : Except String (List RLPItem) :=
  match rlpDecodeItem (bs.length + 1) bs with
  | .error e => .error e
  | .ok (.bytes _, _) => .error "rlp: expected input list"
  | .ok (.items l, []) => .ok l
  | .ok (.items _, _ :: _) => .error "rlp: input contains more than one value"

/-! ## State and storage retrieval (pkg/eth/ipld_retriever.go, vulcanize schema)

Relational model of the joined tables: eth.header_cids (id, block_hash,
block_number), eth.state_cids (id, header_id, state_leaf_key, node_type,
mh_key, cid), eth.storage_cids (state_id, storage_leaf_key, storage_path,
node_type, mh_key, cid) and public.blocks (key, data).  The SQL function
canonical_header(block_number), supplied by the index, is a parameter. -/

structure HeaderRowV where
  id : Nat
  blockHash : String
  blockNumber : Nat
  deriving Repr, DecidableEq

structure StateRowV where
  id : Nat
  headerId : Nat
  stateLeafKey : String
  nodeType : Nat
  mhKey : String
  cid : String
  deriving Repr, DecidableEq

structure StorageRowV where
  stateId : Nat
  storageLeafKey : String
  storagePath : Bytes
  nodeType : Nat
  mhKey : String
  cid : String
  deriving Repr, DecidableEq

structure BlockRowV where
  key : String
  data : Bytes
  deriving Repr, DecidableEq

structure StateDB where
  headers : List HeaderRowV
  states : List StateRowV
  storages : List StorageRowV
  blocks : List BlockRowV
  canonicalHeader : Nat → Nat

/-- The scalar subquery SELECT block_number FROM eth.header_cids WHERE
block_hash = $k. -/
def headerNumberByHash (db : StateDB) (blockHash : String) : Option Nat :=
  (db.headers.find? fun h => h.blockHash == blockHash).map (·.blockNumber)

/-- ORDER BY block_number DESC LIMIT 1 over a candidate list: the first row of
maximal block number. -/
def selectNewest {α : Type} (bn : α → Nat) (rows : List α) : Option α :=
  rows.foldl
    (fun acc r =>
      match acc with
      | none => some r
      | some best => if bn best < bn r then some r else some best)
    none

structure AccountQueryRow where
  cid : String
  data : Bytes
  blockNumber : Nat
  deriving Repr, DecidableEq

/-- The rows satisfying RetrieveAccountByLeafKeyAndBlockHashPgStr
(ipld_retriever.go lines 103 to 113): state joined to its header and to its
raw block, filtered on the leaf key, the height bound from the hash, and
canonicity.  No node_type restriction appears in the SQL. -/
def accountCandidates (db : StateDB) (leafKey : String) (n : Nat) :
    List AccountQueryRow :=
  db.states.flatMap fun s =>
    db.headers.flatMap fun h =>
      db.blocks.filterMap fun b =>
        if s.headerId == h.id && s.mhKey == b.key && s.stateLeafKey == leafKey &&
            decide (h.blockNumber ≤ n) && db.canonicalHeader h.blockNumber == h.id
        then some ⟨s.cid, b.data, h.blockNumber⟩
        else none

inductive AccountErr where
  | noRows
  | decodeErr (m : String)
  | shapeErr
  | typeAssertPanic
  deriving Repr, DecidableEq

/-- IPLDRetriever.RetrieveAccountByAddressAndBlockHash (ipld_retriever.go
lines 389 to 405): hash the address into the state leaf key, run the
canonical newest-row query, RLP-decode the row data into a two-element list
and return the second element; a node_type = 3 row is never filtered out or
treated specially (the source carries a TODO about deleted accounts). -/
def RetrieveAccountByAddressAndBlockHash (keccak : String → String) (db : StateDB)
    (address blockHash : String) : Except AccountErr (String × Bytes) :=
  let leafKey := keccak address
  match headerNumberByHash db blockHash with
  | none => .error .noRows
  | some n =>
    match selectNewest (·.blockNumber) (accountCandidates db leafKey n) with
    | none => .error .noRows
    | some row =>
      match rlpDecodeBytesToList row.data with
      | .error m => .error (.decodeErr m)
      | .ok items =>
        match items with
        | [_, .bytes b] => .ok (row.cid, b)
        | [_, .items _] => .error .typeAssertPanic
        | _ => .error .shapeErr

structure StorageInfoRow where
  cid : String
  data : Bytes
  path : Bytes
  blockNumber : Nat
  deriving Repr, DecidableEq

/-- The rows satisfying retrieveStorageInfoPgStr (ipld_retriever.go lines 145
to 157): storage joined to its state, the state to its header, the storage
node to its raw block, filtered on both leaf keys, the height bound from the
hash, and canonicity; again no node_type restriction. -/
def storageCandidates (db : StateDB) (stateLeafKey storageLeafKey : String) (n : Nat) :
    List StorageInfoRow :=
  db.storages.flatMap fun st =>
    db.states.flatMap fun s =>
      db.headers.flatMap fun h =>
        db.blocks.filterMap fun b =>
          if st.stateId == s.id && s.headerId == h.id && st.mhKey == b.key &&
              s.stateLeafKey == stateLeafKey && st.storageLeafKey == storageLeafKey &&
              decide (h.blockNumber ≤ n) && db.canonicalHeader h.blockNumber == h.id
          then some ⟨st.cid, b.data, st.storagePath, h.blockNumber⟩
          else none

/-- First query of the storage read: the newest matching storage row. -/
def storageInfoQuery (db : StateDB) (stateLeafKey storageLeafKey blockHash : String) :
    Option StorageInfoRow :=
  match headerNumberByHash db blockHash with
  | none => none
  | some n => selectNewest (·.blockNumber) (storageCandidates db stateLeafKey storageLeafKey n)

/-- wasNodeDeletedpgStr (ipld_retriever.go lines 158 to 166): EXISTS over
storage_cids joined to state_cids, with header_cids listed in the FROM clause
but never joined to the state row, so the height window ranges over every
header of the index; the storage row must sit on the given path with
node_type = 3. -/
def wasNodeDeleted (db : StateDB) (path : Bytes) (bn : Nat) (blockHash : String) : Bool :=
  match headerNumberByHash db blockHash with
  | none => false
  | some n =>
    db.storages.any fun st =>
      db.states.any fun s =>
        db.headers.any fun h =>
          st.stateId == s.id && st.storagePath == path &&
            decide (bn < h.blockNumber) && decide (h.blockNumber ≤ n) && st.nodeType == 3

inductive StorageErr where
  | noRows
  | decodeErr (m : String)
  | shapeErr
  | typeAssertPanic
  deriving Repr, DecidableEq

/-- IPLDRetriever.RetrieveStorageAtByAddressAndStorageKeyAndBlockHash
(ipld_retriever.go lines 432 to 473): inside a read transaction (begin and
commit are pure in this relational model), fetch the newest storage row,
probe for a later deletion on its path, and on a positive probe return the
empty byte string with no error, never touching the payload of the row; otherwise
RLP-decode the payload into a two-element list and return the second
element. -/
def RetrieveStorageAtByAddressAndStorageKeyAndBlockHash (keccak : String → String)
    (db : StateDB) (address storageLeafKey blockHash : String) :
    Except StorageErr (String × Bytes) :=
  let stateLeafKey := keccak address
  match storageInfoQuery db stateLeafKey storageLeafKey blockHash with
  | none => .error .noRows
  | some row =>
    if wasNodeDeleted db row.path row.blockNumber blockHash then .ok ("", [])
    else
      match rlpDecodeBytesToList row.data with
      | .error m => .error (.decodeErr m)
      | .ok items =>
        match items with
        | [_, .bytes b] => .ok (row.cid, b)
        | [_, .items _] => .error .typeAssertPanic
        | _ => .error .shapeErr

/-- C1: whenever the storage read selects a newest storage row and a
node_type = 3 row sits on the same storage path at a block strictly later
than that row and at most the height of the query hash, the read returns the
empty byte sequence (the canonical empty-node response, rendered as the
32-byte zero word at the RPC surface) with no error, whatever bytes the
candidate row carried. -/
theorem C1_storage_deletion_probe (keccak : String → String) (db : StateDB)
    (address storageLeafKey blockHash : String) (n : Nat) (row : StorageInfoRow)
    (hn : headerNumberByHash db blockHash = some n)
    (hq : storageInfoQuery db (keccak address) storageLeafKey blockHash = some row)
    (hdel : ∃ st ∈ db.storages, ∃ s ∈ db.states, ∃ h ∈ db.headers,
      st.stateId = s.id ∧ s.headerId = h.id ∧ st.storagePath = row.path ∧
        st.nodeType = 3 ∧ row.blockNumber < h.blockNumber ∧ h.blockNumber ≤ n) :
    RetrieveStorageAtByAddressAndStorageKeyAndBlockHash keccak db address storageLeafKey
      blockHash = .ok ("", []) := by
  have hwd : wasNodeDeleted db row.path row.blockNumber blockHash = true := by
    simp only [wasNodeDeleted, hn]
    obtain ⟨st, hst, s, hs, h, hh, h1, h2, h3, h4, h5, h6⟩ := hdel
    rw [List.any_eq_true]
    refine ⟨st, hst, ?_⟩
    rw [List.any_eq_true]
    refine ⟨s, hs, ?_⟩
    rw [List.any_eq_true]
    refine ⟨h, hh, ?_⟩
    simp [h1, h3, h4, h5, h6]
  simp only [RetrieveStorageAtByAddressAndStorageKeyAndBlockHash, hq, hwd]
  simp

/-- Demonstration index for the storage read: a storage leaf under the state
of block 1 and a node_type = 3 storage row on the same path under the state
of block 2; the removed row has no raw block, as the indexer stores none for
it, so the newest-row query yields the leaf while the probe sees the
deletion. -/
def demoStorageDB : StateDB :=
  { headers := [⟨1, "0xB1", 1⟩, ⟨2, "0xB2", 2⟩]
    states := [⟨10, 1, "K", 2, "mhS1", "cidS1"⟩, ⟨11, 2, "K", 3, "mhS2", "cidS2"⟩]
    storages := [⟨10, "SK", [1], 2, "mhT1", "cidT1"⟩, ⟨11, "SK", [1], 3, "mhT2", "cidT2"⟩]
    blocks := [⟨"mhT1", [194, 1, 5]⟩]
    canonicalHeader := fun n => n }

/-- C1 witness: on the demonstration index the leaf row of block 1 is
selected, the deletion probe fires, and the read returns the empty value with
no error even though the leaf row holds a decodable nonempty payload. -/
theorem C1_storage_deletion_probe_witness :
    headerNumberByHash demoStorageDB "0xB2" = some 2 ∧
      storageInfoQuery demoStorageDB "K" "SK" "0xB2" =
        some ⟨"cidT1", [194, 1, 5], [1], 1⟩ ∧
      RetrieveStorageAtByAddressAndStorageKeyAndBlockHash (fun _ => "K") demoStorageDB
        "0xAddr" "SK" "0xB2" = .ok ("", []) :=
  ⟨by decide, by decide,
    C1_storage_deletion_probe (fun _ => "K") demoStorageDB "0xAddr" "SK" "0xB2" 2
      ⟨"cidT1", [194, 1, 5], [1], 1⟩ (by decide) (by decide)
      ⟨⟨11, "SK", [1], 3, "mhT2", "cidT2"⟩, by decide, ⟨11, 2, "K", 3, "mhS2", "cidS2"⟩,
        by decide, ⟨2, "0xB2", 2⟩, by decide, by decide⟩⟩

/-- Demonstration index for the account read: the newest canonical state row
for the leaf key at block 2 is a node_type = 3 removal whose raw block holds
an empty payload, with a decodable leaf row underneath at block 1. -/
def demoAccountDB : StateDB :=
  { headers := [⟨1, "0xB1", 1⟩, ⟨2, "0xB2", 2⟩]
    states := [⟨10, 1, "K", 2, "mhS1", "cidS1"⟩, ⟨11, 2, "K", 3, "mhS2", "cidS2"⟩]
    storages := []
    blocks := [⟨"mhS1", [194, 1, 5]⟩, ⟨"mhS2", []⟩]
    canonicalHeader := fun n => n }

/-- C2: the account query never inspects node_type, so when the newest
canonical state row is a node_type = 3 removal the source decodes the
removal payload as a state leaf; on the demonstration index this surfaces an
RLP decoding error instead of the empty account the claim requires.  The
source itself carries a TODO to handle deleted accounts. -/
theorem C2_removed_account_not_masked :
    selectNewest (·.blockNumber) (accountCandidates demoAccountDB "K" 2) =
        some ⟨"cidS2", [], 2⟩ ∧
      RetrieveAccountByAddressAndBlockHash (fun _ => "K") demoAccountDB "0xAddr" "0xB2" =
        .error (.decodeErr "EOF") := by
  decide

/-! ## GraphQL Resolver.GetStorageAt (part_001 lines 1007 to 1036) -/

/-- Modelled from the spec: eth.EmptyNodeValue, defined outside the provided
sources, is the canonical 32-byte-zero storage response for missing or
deleted slots. -/
def EmptyNodeValue : Bytes :=
  List.replicate 32 0

/-- Outcome classes of the underlying storage lookup as the resolver
distinguishes them: the SQL no-rows sentinel against any other error. -/
inductive SqlErr where
  | noRows
  | other (m : String)
  deriving Repr, DecidableEq

structure StorageResult where
  value : Bytes
  cid : String
  ipldBlock : Bytes
  deriving Repr, DecidableEq

/-- rlp.DecodeBytes into a single generic value: the whole input must be one
RLP value. -/
def rlpDecodeBytesToValue (bs : Bytes) : Except String RLPItem :=
  match rlpDecodeItem (bs.length + 1) bs with
  | .error e => .error e
  | .ok (it, []) => .ok it
  | .ok (_, _ :: _) => .error "rlp: input contains more than one value"

/-- Resolver.GetStorageAt over the outcome of
RetrieveStorageAtByAddressAndStorageSlotAndBlockHash, which yields the cid,
the raw IPLD block and the rlp value: the SQL no-rows error becomes an
all-empty StorageResult with no error, any other error propagates; an
EmptyNodeValue payload is passed through undecoded; otherwise the payload is
RLP-decoded and its byte-string content returned. -/
def resolverGetStorageAt (lookup : Except SqlErr (String × Bytes × Bytes)) :
    Except String StorageResult :=
  match lookup with
  | .error .noRows => .ok ⟨[], "", []⟩
  | .error (.other m) => .error m
  | .ok (cid, ipldBlock, rlpValue) =>
    if rlpValue == EmptyNodeValue then .ok ⟨EmptyNodeValue, cid, ipldBlock⟩
    else
      match rlpDecodeBytesToValue rlpValue with
      | .error m => .error m
      | .ok (.bytes b) => .ok ⟨b, cid, ipldBlock⟩
      | .ok (.items _) => .error "panic: interface conversion"

/-- C7: when the underlying storage lookup reports the SQL no-rows condition,
the resolver returns a StorageResult whose value, cid and IPLD block are all
empty, with no error, rather than propagating the error. -/
theorem C7_get_storage_at_no_rows :
    resolverGetStorageAt (.error .noRows) = .ok ⟨[], "", []⟩ := by
  rfl

/-! ## Receipt filter composition (cid_retriever.go lines 283 to 359)

The selection semantics of the SQL assembled by receiptFilterConditions and
topicFilterCondition: a receipt row is identified by its tx_id, its logs are
the log_cids rows whose rct_id equals that tx_id. -/

structure ReceiptFilterM where
  logAddresses : List String
  topics : List (List String)
  matchTxs : Bool
  deriving Repr, DecidableEq

structure LogRowM where
  rctId : String
  address : String
  topic0 : String
  topic1 : String
  topic2 : String
  topic3 : String
  deriving Repr, DecidableEq

structure ReceiptRowM where
  txId : String
  deriving Repr, DecidableEq

/-- The topic column of a log row at a position, as the SQL column topic0 to
topic3. -/
def topicAt (l : LogRowM) : Nat → String
  | 0 => l.topic0
  | 1 => l.topic1
  | 2 => l.topic2
  | 3 => l.topic3
  | _ => ""

/-- hasTopics (cid_retriever.go lines 474 to 481): some inner topic list is
nonempty. -/
def hasTopics (topics : List (List String)) : Bool :=
  topics.any fun ts => !ts.isEmpty

/-- topicFilterCondition (lines 283 to 299): one conjunct per nonempty inner
list, topic_i = ANY of the listed values; empty inner lists are skipped. -/
def topicConditions (topics : List (List String)) (l : LogRowM) : Bool :=
  (List.range topics.length).all fun i =>
    (topics.getD i []).isEmpty || decide (topicAt l i ∈ topics.getD i [])

/-- receiptFilterConditions (lines 316 to 359), read as a selection predicate
on a receipt row: with log addresses present, the receipt passes when its
tx_id appears among the rct_id values of log rows matching the address
condition and (when any are given) the topic conditions, OR, when MatchTxs is
set and tx hashes were supplied, when its tx_id is among them; with no
address filter the topic conditions apply alone; with neither, only the
MatchTxs arm restricts; with nothing at all every receipt passes. -/
def receiptSelected (f : ReceiptFilterM) (txHashes : List String) (logs : List LogRowM)
    (r : ReceiptRowM) : Bool :=
  if !f.logAddresses.isEmpty then
    (logs.any fun l => l.rctId == r.txId && decide (l.address ∈ f.logAddresses) &&
        (!hasTopics f.topics || topicConditions f.topics l)) ||
      (f.matchTxs && !txHashes.isEmpty && decide (r.txId ∈ txHashes))
  else if hasTopics f.topics then
    (logs.any fun l => l.rctId == r.txId && topicConditions f.topics l) ||
      (f.matchTxs && !txHashes.isEmpty && decide (r.txId ∈ txHashes))
  else if f.matchTxs && !txHashes.isEmpty then
    decide (r.txId ∈ txHashes)
  else
    true

theorem topics_all_empty_of_not_hasTopics (topics : List (List String))
    (h : hasTopics topics = false) :
    ∀ i, i < topics.length → topics.getD i [] = [] := by
  intro i hi
  unfold hasTopics at h
  rw [List.any_eq_false] at h
  have hmem : topics.getD i [] ∈ topics := by
    rw [List.getD_eq_getElem _ _ hi]
    exact List.getElem_mem hi
  have := h _ hmem
  simpa using this

theorem topicConditions_iff (topics : List (List String)) (l : LogRowM) :
    topicConditions topics l = true ↔
      ∀ i, i < topics.length → topics.getD i [] = [] ∨ topicAt l i ∈ topics.getD i [] := by
  unfold topicConditions
  rw [List.all_eq_true]
  constructor
  · intro h i hi
    have hx := h i (List.mem_range.mpr hi)
    rcases (Bool.or_eq_true _ _).mp hx with hx | hx
    · exact Or.inl (by simpa using hx)
    · exact Or.inr (of_decide_eq_true hx)
  · intro h i hi
    rw [List.mem_range] at hi
    show ((topics.getD i []).isEmpty || decide (topicAt l i ∈ topics.getD i [])) = true
    rw [Bool.or_eq_true, decide_eq_true_eq]
    rcases h i hi with hx | hx
    · rw [hx]
      exact Or.inl rfl
    · exact Or.inr hx

theorem logTopicArm_iff (topics : List (List String)) (l : LogRowM) :
    ((!hasTopics topics || topicConditions topics l) = true) ↔
      ∀ i, i < topics.length → topics.getD i [] = [] ∨ topicAt l i ∈ topics.getD i [] := by
  cases hT : hasTopics topics with
  | false =>
    simp only [hT, Bool.not_false, Bool.true_or]
    constructor
    · intro _ i hi
      exact Or.inl (topics_all_empty_of_not_hasTopics topics hT i hi)
    · intro _
      trivial
  | true =>
    simp only [hT, Bool.not_true, Bool.false_or]
    exact topicConditions_iff topics l

theorem txArm_iff (matchTxs : Bool) (txHashes : List String) (x : String) :
    ((matchTxs && !txHashes.isEmpty && decide (x ∈ txHashes)) = true) ↔
      (matchTxs = true ∧ x ∈ txHashes) := by
  constructor
  · intro h
    simp only [Bool.and_eq_true, decide_eq_true_eq] at h
    exact ⟨h.1.1, h.2⟩
  · rintro ⟨h1, h2⟩
    simp only [Bool.and_eq_true, decide_eq_true_eq]
    exact ⟨⟨h1, by simpa [List.isEmpty_iff] using List.ne_nil_of_mem h2⟩, h2⟩

/-- C3: a receipt is selected exactly when one of its logs meets the address
restriction and the topic restrictions jointly, or MatchTxs is set and its
tx_id is among the supplied tx hashes; a topic position with an empty inner
list matches any value; the log disjunct presupposes some address or topic
restriction (with neither present and MatchTxs set the tx-hash arm alone
selects), and a filter with no address, topic or tx-hash restriction selects
every receipt of the header. -/
theorem C3_receipt_selection (f : ReceiptFilterM) (txHashes : List String)
    (logs : List LogRowM) (r : ReceiptRowM) (_hlen : f.topics.length ≤ 4) :
    ((f.logAddresses ≠ [] ∨ hasTopics f.topics = true) →
      (receiptSelected f txHashes logs r = true ↔
        (∃ l ∈ logs, l.rctId = r.txId ∧
            (f.logAddresses ≠ [] → l.address ∈ f.logAddresses) ∧
            ∀ i, i < f.topics.length →
              f.topics.getD i [] = [] ∨ topicAt l i ∈ f.topics.getD i []) ∨
          (f.matchTxs = true ∧ r.txId ∈ txHashes))) ∧
      (f.logAddresses = [] → hasTopics f.topics = false → f.matchTxs = true →
        txHashes ≠ [] →
        (receiptSelected f txHashes logs r = true ↔ r.txId ∈ txHashes)) ∧
      (f.logAddresses = [] → hasTopics f.topics = false →
        ¬(f.matchTxs = true ∧ txHashes ≠ []) →
        receiptSelected f txHashes logs r = true) := by
  refine ⟨?_, ?_, ?_⟩
  · intro hAT
    by_cases hA : f.logAddresses = []
    · have hT : hasTopics f.topics = true := by
        rcases hAT with h | h
        · exact absurd hA h
        · exact h
      have hAe : f.logAddresses.isEmpty = true := by
        simp [hA]
      rw [receiptSelected, hAe]
      simp only [Bool.not_true, Bool.false_eq_true, if_false, hT, if_true]
      rw [Bool.or_eq_true, List.any_eq_true, txArm_iff]
      apply or_congr
      · apply exists_congr
        intro l
        apply and_congr_right
        intro _
        rw [Bool.and_eq_true, beq_iff_eq, topicConditions_iff]
        constructor
        · rintro ⟨h1, h2⟩
          exact ⟨h1, fun hne => absurd hA hne, h2⟩
        · rintro ⟨h1, -, h3⟩
          exact ⟨h1, h3⟩
      · exact Iff.rfl
    · have hAe : f.logAddresses.isEmpty = false := by
        rcases hv : f.logAddresses.isEmpty
        · rfl
        · exact absurd (List.isEmpty_iff.mp hv) hA
      rw [receiptSelected, hAe]
      simp only [Bool.not_false, if_true]
      rw [Bool.or_eq_true, List.any_eq_true, txArm_iff]
      apply or_congr
      · apply exists_congr
        intro l
        apply and_congr_right
        intro _
        rw [Bool.and_eq_true, Bool.and_eq_true, beq_iff_eq, decide_eq_true_eq,
          logTopicArm_iff]
        constructor
        · rintro ⟨⟨h1, h2⟩, h3⟩
          exact ⟨h1, fun _ => h2, h3⟩
        · rintro ⟨h1, h2, h3⟩
          exact ⟨⟨h1, h2 hA⟩, h3⟩
      · exact Iff.rfl
  · intro hA hT hM hNE
    have hAe : f.logAddresses.isEmpty = true := by
      simp [hA]
    have hHe : txHashes.isEmpty = false := by
      rcases hv : txHashes.isEmpty
      · rfl
      · exact absurd (List.isEmpty_iff.mp hv) hNE
    rw [receiptSelected, hAe]
    simp only [Bool.not_true, Bool.false_eq_true, if_false, hT, hM, hHe, Bool.not_false,
      Bool.true_and, if_true]
    simp
  · intro hA hT hMT
    have hAe : f.logAddresses.isEmpty = true := by
      simp [hA]
    have hArm : (f.matchTxs && !txHashes.isEmpty) = false := by
      rcases hv : (f.matchTxs && !txHashes.isEmpty)
      · rfl
      · exfalso
        rw [Bool.and_eq_true, Bool.not_eq_true'] at hv
        refine hMT ⟨hv.1, ?_⟩
        intro hnil
        rw [hnil] at hv
        exact absurd hv.2 (by simp)
    rw [receiptSelected, hAe]
    simp [Bool.not_true, hT, hArm]

def demoFilter : ReceiptFilterM :=
  { logAddresses := ["A"], topics := [["T0"], []], matchTxs := true }

def demoLogs : List LogRowM :=
  [⟨"R1", "A", "T0", "t1", "t2", "t3"⟩]

def demoRct : ReceiptRowM :=
  ⟨"R1"⟩

/-- C3 witness: the selection equivalence evaluated for a filter with one
address, a topic restriction in position zero, an empty inner list in
position one, and MatchTxs set. -/
theorem C3_receipt_selection_witness :
    receiptSelected demoFilter ["X"] demoLogs demoRct = true ↔
      (∃ l ∈ demoLogs, l.rctId = demoRct.txId ∧
          (demoFilter.logAddresses ≠ [] → l.address ∈ demoFilter.logAddresses) ∧
          ∀ i, i < demoFilter.topics.length →
            demoFilter.topics.getD i [] = [] ∨ topicAt l i ∈ demoFilter.topics.getD i []) ∨
        (demoFilter.matchTxs = true ∧ demoRct.txId ∈ ["X"]) :=
  (C3_receipt_selection demoFilter ["X"] demoLogs demoRct (by decide)).1
    (Or.inl (by decide))

end IpldEth
